import Mathlib

/-!
Verification development for the multi-agent demo pipeline
(`src/autogen_project.py`): a Coordinator (`Orchestrator.run_task`) drives a
Generator (`CoderAgent.write_code`), a Reviewer (`ReviewerAgent.review`) and a
Runner (`ExecutorAgent.run_code`) in a bounded retry loop, and a persistence
helper (`update_readme_with_output`) rewrites a marker-delimited section of a
text document.

The Python source is shallowly embedded: text is `String` (or `List Char`
where character-level reasoning is needed), Python dictionaries are
association lists, the completion-service calls and the `exec` of candidate
code are oracle functions passed in as parameters (an `Except` result models
a raised exception), and the mutable `CoderAgent.attempt` counter is threaded
state.
-/

namespace Autogen

/-! ## Substring machinery (Python `in`, `str.split(sep)[0]`)

`update_readme_with_output` manipulates the document with `in` tests and
`content.split(start_marker)[0]`.  We model text as `List Char` and define
the corresponding operations by structural recursion.
-/

/-- Does `pat` occur as a contiguous substring of `l`?  Models Python's
`pat in s` membership test on strings. -/
def occurs (pat : List Char) : List Char → Bool
  | [] => pat.isEmpty
  | c :: cs => pat.isPrefixOf (c :: cs) || occurs pat cs

/-- The part of `l` strictly before the first occurrence of `pat`
(all of `l` if `pat` does not occur).  Models Python `s.split(pat)[0]`. -/
def beforeFirst (pat : List Char) : List Char → List Char
  | [] => []
  | c :: cs => if pat.isPrefixOf (c :: cs) then [] else c :: beforeFirst pat cs

/-- The part of `l` strictly after the first occurrence of `pat`
(`[]` if `pat` does not occur). -/
def afterFirst (pat : List Char) : List Char → List Char
  | [] => []
  | c :: cs => if pat.isPrefixOf (c :: cs) then (c :: cs).drop pat.length else afterFirst pat cs

/-- `pat` has no nonempty proper border (no nonempty proper suffix of `pat`
is also a prefix of `pat`).  This rules out occurrences of `pat` that
straddle a `… ++ pat ++ …` boundary. -/
def noBorder (pat : List Char) : Prop :=
  ∀ k < pat.length, 0 < k → pat.drop k ≠ pat.take (pat.length - k)

/-- No nonempty proper suffix of `pat` is a prefix of `q`: an occurrence of
`pat` inside `u ++ q` cannot straddle the boundary when `q` satisfies this. -/
def noCross (pat q : List Char) : Prop :=
  ∀ k < pat.length, 0 < k → (pat.drop k).isPrefixOf q = false

instance (pat : List Char) : Decidable (noBorder pat) := by
  unfold noBorder; infer_instance

instance (pat q : List Char) : Decidable (noCross pat q) := by
  unfold noCross; infer_instance

theorem occurs_iff (pat l : List Char) :
    occurs pat l = true ↔ ∃ u v, l = u ++ pat ++ v := by
  induction l with
  | nil =>
    simp only [occurs, List.isEmpty_iff]
    constructor
    · rintro rfl; exact ⟨[], [], rfl⟩
    · rintro ⟨u, v, huv⟩
      rcases List.append_eq_nil.1 (List.append_eq_nil.1 huv.symm).1 with ⟨-, h2⟩
      exact h2
  | cons c cs ih =>
    simp only [occurs, Bool.or_eq_true, ih, List.isPrefixOf_iff_prefix]
    constructor
    · rintro (⟨t, ht⟩ | ⟨u, v, rfl⟩)
      · exact ⟨[], t, by simp [← ht]⟩
      · exact ⟨c :: u, v, by simp⟩
    · rintro ⟨u, v, huv⟩
      cases u with
      | nil =>
        left
        exact ⟨v, by simpa using huv.symm⟩
      | cons a us =>
        right
        refine ⟨us, v, ?_⟩
        have := huv
        simp only [List.cons_append] at this
        exact (List.cons_eq_cons.1 this).2

theorem occurs_of_eq (pat l u v : List Char) (h : l = u ++ pat ++ v) :
    occurs pat l = true :=
  (occurs_iff _ _).2 ⟨u, v, h⟩

theorem beforeFirst_prefix (pat l : List Char) : beforeFirst pat l <+: l := by
  induction l with
  | nil => simp [beforeFirst]
  | cons c cs ih =>
    by_cases h : pat.isPrefixOf (c :: cs) = true
    · simp [beforeFirst, h]
    · simp only [beforeFirst, h, if_false, Bool.false_eq_true]
      exact (List.prefix_cons_inj c).2 ih

theorem not_occurs_beforeFirst (pat l : List Char) (hpat : pat ≠ []) :
    occurs pat (beforeFirst pat l) = false := by
  induction l with
  | nil => simpa [beforeFirst, occurs, List.isEmpty_iff] using hpat
  | cons c cs ih =>
    by_cases h : pat.isPrefixOf (c :: cs) = true
    · simpa [beforeFirst, h, occurs, List.isEmpty_iff] using hpat
    · simp only [beforeFirst, h, if_false, Bool.false_eq_true]
      simp only [occurs, Bool.or_eq_false_iff]
      refine ⟨?_, ih⟩
      by_contra hcon
      rw [Bool.not_eq_false, List.isPrefixOf_iff_prefix] at hcon
      have hsub : (beforeFirst pat cs) <+: cs := beforeFirst_prefix pat cs
      have : pat <+: c :: cs :=
        hcon.trans ((List.prefix_cons_inj c).2 hsub)
      rw [← List.isPrefixOf_iff_prefix] at this
      exact h this

theorem prefix_of_append_of_le (pat u v : List Char)
    (h : pat <+: u ++ v) (hle : pat.length ≤ u.length) : pat <+: u := by
  rw [List.prefix_iff_eq_take] at h ⊢
  rw [List.take_append_of_le_length hle] at h
  exact h

/-- Key straddle-freedom lemma: if `pat` does not occur in `p` and has no
nonempty proper border, then the first occurrence of `pat` in
`p ++ pat ++ r` is exactly at position `p.length`. -/
theorem beforeFirst_append (pat p r : List Char) (hpat : pat ≠ [])
    (hnb : noBorder pat) (hp : occurs pat p = false) :
    beforeFirst pat (p ++ (pat ++ r)) = p := by
  induction p with
  | nil =>
    cases pat with
    | nil => exact absurd rfl hpat
    | cons a as =>
      have hpre : (a :: as).isPrefixOf (a :: as ++ r) = true := by
        rw [List.isPrefixOf_iff_prefix]
        exact List.prefix_append _ _
      simp [beforeFirst, hpre]
  | cons a p' ih =>
    have hp' : occurs pat p' = false := by
      simp only [occurs, Bool.or_eq_false_iff] at hp
      exact hp.2
    have hnotpre : pat.isPrefixOf (a :: (p' ++ (pat ++ r))) = false := by
      by_contra hcon
      rw [Bool.not_eq_false, List.isPrefixOf_iff_prefix] at hcon
      have hcon' : pat <+: (a :: p') ++ (pat ++ r) := by simpa using hcon
      by_cases hlen : pat.length ≤ (a :: p').length
      · have hps : pat <+: a :: p' := prefix_of_append_of_le _ _ _ hcon' hlen
        have : occurs pat (a :: p') = true := by
          simp only [occurs, Bool.or_eq_true]
          left
          rw [List.isPrefixOf_iff_prefix]
          exact hps
        rw [this] at hp
        exact absurd hp (by simp)
      · push_neg at hlen
        have htake := List.prefix_iff_eq_take.1 hcon'
        rw [List.take_append_eq_append_take,
          List.take_of_length_le (le_of_lt hlen),
          List.take_append_of_le_length (by omega)] at htake
        have hdrop := congrArg (List.drop (a :: p').length) htake
        rw [List.drop_left] at hdrop
        exact hnb (a :: p').length (by simpa using hlen) (by simp) hdrop
    have : (a :: p') ++ (pat ++ r) = a :: (p' ++ (pat ++ r)) := by simp
    rw [this]
    simp only [beforeFirst, hnotpre, if_false, Bool.false_eq_true]
    rw [ih hp']

/-- Companion of `beforeFirst_append` for the part after the marker. -/
theorem afterFirst_append (pat p r : List Char) (hpat : pat ≠ [])
    (hnb : noBorder pat) (hp : occurs pat p = false) :
    afterFirst pat (p ++ (pat ++ r)) = r := by
  induction p with
  | nil =>
    cases pat with
    | nil => exact absurd rfl hpat
    | cons a as =>
      have hpre : (a :: as).isPrefixOf (a :: as ++ r) = true := by
        rw [List.isPrefixOf_iff_prefix]
        exact List.prefix_append _ _
      simp [afterFirst, hpre, List.drop_left']
  | cons a p' ih =>
    have hp' : occurs pat p' = false := by
      simp only [occurs, Bool.or_eq_false_iff] at hp
      exact hp.2
    have hnotpre : pat.isPrefixOf (a :: (p' ++ (pat ++ r))) = false := by
      by_contra hcon
      rw [Bool.not_eq_false, List.isPrefixOf_iff_prefix] at hcon
      have hcon' : pat <+: (a :: p') ++ (pat ++ r) := by simpa using hcon
      by_cases hlen : pat.length ≤ (a :: p').length
      · have hps : pat <+: a :: p' := prefix_of_append_of_le _ _ _ hcon' hlen
        have : occurs pat (a :: p') = true := by
          simp only [occurs, Bool.or_eq_true]
          left
          rw [List.isPrefixOf_iff_prefix]
          exact hps
        rw [this] at hp
        exact absurd hp (by simp)
      · push_neg at hlen
        have htake := List.prefix_iff_eq_take.1 hcon'
        rw [List.take_append_eq_append_take,
          List.take_of_length_le (le_of_lt hlen),
          List.take_append_of_le_length (by omega)] at htake
        have hdrop := congrArg (List.drop (a :: p').length) htake
        rw [List.drop_left] at hdrop
        exact hnb (a :: p').length (by simpa using hlen) (by simp) hdrop
    have : (a :: p') ++ (pat ++ r) = a :: (p' ++ (pat ++ r)) := by simp
    rw [this]
    simp only [afterFirst, hnotpre, if_false, Bool.false_eq_true]
    rw [ih hp']

/-- If `pat` occurs neither inside `u` nor inside `v` and cannot straddle the
boundary (`noCross`), it does not occur in `u ++ v`. -/
theorem occurs_append_false (pat u v : List Char)
    (hu : occurs pat u = false) (hv : occurs pat v = false)
    (hcross : noCross pat v) : occurs pat (u ++ v) = false := by
  by_contra h
  rw [Bool.not_eq_false] at h
  obtain ⟨x, y, hxy⟩ := (occurs_iff _ _).1 h
  rw [List.append_assoc, List.append_eq_append_iff] at hxy
  rcases hxy with ⟨w, hxw, hv'⟩ | ⟨w, huw, hw⟩
  · -- x = u ++ w, v = w ++ (pat ++ y): occurrence inside v
    have : occurs pat v = true := occurs_of_eq _ _ w y (by simpa using hv')
    rw [this] at hv; exact absurd hv (by simp)
  · -- u = x ++ w, pat ++ y = w ++ v
    rcases (List.append_eq_append_iff).1 hw with ⟨z, hwz, hy'⟩ | ⟨z, hpz, hvz⟩
    · -- w = pat ++ z: occurrence inside u
      have : occurs pat u = true := occurs_of_eq _ _ x z (by rw [huw, hwz]; simp)
      rw [this] at hu; exact absurd hu (by simp)
    · -- pat = w ++ z, v = z ++ y
      cases hz : z with
      | nil =>
        -- w = pat: occurrence at the end of u
        have hwpat : w = pat := by simpa [hz] using hpz.symm
        have : occurs pat u = true := occurs_of_eq _ _ x [] (by rw [huw, hwpat]; simp)
        rw [this] at hu; exact absurd hu (by simp)
      | cons z0 zs =>
        cases hwc : w with
        | nil =>
          -- pat = z, v = pat ++ y: occurrence at the front of v
          have hpatz : pat = z := by simpa [hwc] using hpz
          have : occurs pat v = true := occurs_of_eq _ _ [] y (by
            rw [hvz, hpatz]; simp)
          rw [this] at hv; exact absurd hv (by simp)
        | cons w0 ws =>
          -- genuine straddle: 0 < w.length < pat.length, pat.drop w.length = z <+: v
          have hlen : w.length < pat.length := by
            rw [hpz]; simp [hz]
          have hdropw : pat.drop w.length = z := by
            rw [hpz, List.drop_left]
          have hprez : z.isPrefixOf v = true := by
            rw [List.isPrefixOf_iff_prefix, hvz]
            exact List.prefix_append _ _
          have := hcross w.length hlen (by simp [hwc])
          rw [hdropw, hprez] at this
          exact absurd this (by simp)

/-- The part before the first occurrence only depends on the document up to
that occurrence: appending text after a document that already contains `pat`
does not change `beforeFirst`. -/
theorem beforeFirst_append_of_occurs (pat a b : List Char)
    (ha : occurs pat a = true) :
    beforeFirst pat (a ++ b) = beforeFirst pat a := by
  induction a with
  | nil =>
    simp only [occurs, List.isEmpty_iff] at ha
    subst ha
    cases b with
    | nil => rfl
    | cons c cs => simp [beforeFirst, List.isPrefixOf]
  | cons c cs ih =>
    by_cases hpre : pat.isPrefixOf (c :: cs) = true
    · have hpre2 : pat.isPrefixOf (c :: cs ++ b) = true := by
        rw [List.isPrefixOf_iff_prefix] at hpre ⊢
        exact hpre.trans (List.prefix_append _ _)
      have : (c :: cs) ++ b = c :: (cs ++ b) := by simp
      rw [this]
      simp only [beforeFirst, hpre]
      simpa using hpre2
    · have hocc : occurs pat cs = true := by
        simp only [occurs, hpre, Bool.false_or] at ha
        exact ha
      obtain ⟨u, v, huv⟩ := (occurs_iff _ _).1 hocc
      have hlen : pat.length ≤ cs.length := by
        rw [huv]; simp; omega
      have hpre2 : pat.isPrefixOf (c :: (cs ++ b)) = false := by
        by_contra hcon
        rw [Bool.not_eq_false, List.isPrefixOf_iff_prefix] at hcon
        have : pat <+: (c :: cs) ++ b := by simpa using hcon
        have := prefix_of_append_of_le _ _ _ this (by simp; omega)
        rw [← List.isPrefixOf_iff_prefix] at this
        exact absurd this (by simp [hpre])
      have : (c :: cs) ++ b = c :: (cs ++ b) := by simp
      rw [this]
      simp only [beforeFirst, hpre2, hpre, if_false, Bool.false_eq_true]
      rw [ih hocc]

/-! ## The persistence boundary: `update_readme_with_output`

Models the content transformation of `update_readme_with_output` (source
lines 317-342); reading and writing the README file itself is the ambient
I/O boundary and out of scope.  The document and the payload are `List Char`.
-/

/-- Source: `start_marker = "<!-- AUTO_GEN_OUTPUT_START -->"`. -/
def startMarker : List Char := "<!-- AUTO_GEN_OUTPUT_START -->".data

/-- Source: `end_marker = "<!-- AUTO_GEN_OUTPUT_END -->"`. -/
def endMarker : List Char := "<!-- AUTO_GEN_OUTPUT_END -->".data

/-- The header text prepended in the append branch:
`content += f"\n\n## Latest Output\n{new_section}\n"`. -/
def headerChunk : List Char := "\n\n## Latest Output\n".data

/-- The code-fence line inside the generated section. -/
def fenceChunk : List Char := "\n```\n".data

/-- The trailing newline of the append branch. -/
def newlineChunk : List Char := "\n".data

/-- Everything of the generated section after the start marker. -/
def sectionTail (payload : List Char) : List Char :=
  fenceChunk ++ payload ++ fenceChunk ++ endMarker

/-- Source: `new_section = f"{start_marker}\n```\n{output_text}\n```\n{end_marker}"`. -/
def newSection (payload : List Char) : List Char :=
  startMarker ++ sectionTail payload

/-- The content transformation of `update_readme_with_output`:
if both markers are present the document becomes
`content.split(start_marker)[0] + new_section`, otherwise the new section is
appended under a header. -/
def update_readme_with_output (content payload : List Char) : List Char :=
  if occurs startMarker content && occurs endMarker content then
    beforeFirst startMarker content ++ newSection payload
  else
    content ++ headerChunk ++ newSection payload ++ newlineChunk

/-- Spec-side observer (from the spec wording "delimited section"): the text
strictly between the first start marker and the first end marker after it,
when both are present. -/
def sectionContent (doc : List Char) : Option (List Char) :=
  if occurs startMarker doc then
    if occurs endMarker (afterFirst startMarker doc) then
      some (beforeFirst endMarker (afterFirst startMarker doc))
    else none
  else none

theorem startMarker_ne_nil : startMarker ≠ [] := by decide

theorem noBorder_startMarker : noBorder startMarker := by decide

theorem not_occurs_start_header : occurs startMarker headerChunk = false := by decide

theorem noCross_start_header : noCross startMarker headerChunk := by decide

theorem occurs_start_newSection (Q payload tail : List Char) :
    occurs startMarker (Q ++ newSection payload ++ tail) = true :=
  occurs_of_eq _ _ Q (sectionTail payload ++ tail)
    (by simp [newSection, List.append_assoc])

theorem occurs_end_newSection (Q payload tail : List Char) :
    occurs endMarker (Q ++ newSection payload ++ tail) = true :=
  occurs_of_eq _ _ (Q ++ startMarker ++ fenceChunk ++ payload ++ fenceChunk) tail
    (by simp [newSection, sectionTail, List.append_assoc])

theorem beforeFirst_start_newSection (Q payload tail : List Char)
    (hQ : occurs startMarker Q = false) :
    beforeFirst startMarker (Q ++ newSection payload ++ tail) = Q := by
  have hshape : Q ++ newSection payload ++ tail =
      Q ++ (startMarker ++ (sectionTail payload ++ tail)) := by
    simp [newSection, List.append_assoc]
  rw [hshape]
  exact beforeFirst_append startMarker Q (sectionTail payload ++ tail)
    startMarker_ne_nil noBorder_startMarker hQ

theorem afterFirst_start_newSection (Q payload tail : List Char)
    (hQ : occurs startMarker Q = false) :
    afterFirst startMarker (Q ++ newSection payload ++ tail) =
      sectionTail payload ++ tail := by
  have hshape : Q ++ newSection payload ++ tail =
      Q ++ (startMarker ++ (sectionTail payload ++ tail)) := by
    simp [newSection, List.append_assoc]
  rw [hshape]
  exact afterFirst_append startMarker Q (sectionTail payload ++ tail)
    startMarker_ne_nil noBorder_startMarker hQ

theorem occurs_end_sectionTail (payload tail : List Char) :
    occurs endMarker (sectionTail payload ++ tail) = true :=
  occurs_of_eq _ _ (fenceChunk ++ payload ++ fenceChunk) tail
    (by simp [sectionTail, List.append_assoc])

/-- Master shape lemma: the delimited section of any document of the form
`Q ++ newSection payload ++ tail` (with no start marker inside `Q`) does not
depend on `tail`. -/
theorem sectionContent_newSection (Q payload tail : List Char)
    (hQ : occurs startMarker Q = false) :
    sectionContent (Q ++ newSection payload ++ tail) =
      some (beforeFirst endMarker (sectionTail payload)) := by
  have h1 := occurs_start_newSection Q payload tail
  have h2 := afterFirst_start_newSection Q payload tail hQ
  have h3 := occurs_end_sectionTail payload tail
  have h4 : beforeFirst endMarker (sectionTail payload ++ tail) =
      beforeFirst endMarker (sectionTail payload) :=
    beforeFirst_append_of_occurs _ _ _
      (occurs_of_eq _ _ (fenceChunk ++ payload ++ fenceChunk) []
        (by simp [sectionTail, List.append_assoc]))
  simp only [sectionContent, h1, h2, h3, h4]
  simp

/-- C8 as stated: the replace branch keeps every character outside the
delimited section, including the suffix after the end marker. -/
def framePreservedClaim (content payload : List Char) : Prop :=
  (occurs startMarker content && occurs endMarker content) = true →
    update_readme_with_output content payload =
      beforeFirst startMarker content ++ newSection payload ++
        afterFirst endMarker content

instance (content payload : List Char) : Decidable (framePreservedClaim content payload) := by
  unfold framePreservedClaim; infer_instance

/-- C8, counterexample: on the document
`"A<!-- AUTO_GEN_OUTPUT_START -->OLD<!-- AUTO_GEN_OUTPUT_END -->B"` the
update discards the character `B` after the end marker, so the document
text outside the delimited section is not all preserved. -/
theorem update_readme_frame_counterexample :
    ¬ framePreservedClaim
      ("A<!-- AUTO_GEN_OUTPUT_START -->OLD<!-- AUTO_GEN_OUTPUT_END -->B".data)
      ("P".data) := by decide

/-- C8 (amended): when both markers are present, the prefix of the document
before the first start marker is preserved unchanged, and everything from
the start marker to the end of the document is replaced by the freshly
generated section (the text after the end marker is discarded, not kept). -/
theorem update_readme_replaces_tail (content payload : List Char)
    (h : (occurs startMarker content && occurs endMarker content) = true) :
    update_readme_with_output content payload =
      beforeFirst startMarker content ++ newSection payload ∧
    beforeFirst startMarker (update_readme_with_output content payload) =
      beforeFirst startMarker content := by
  have heq : update_readme_with_output content payload =
      beforeFirst startMarker content ++ newSection payload := by
    simp [update_readme_with_output, h]
  refine ⟨heq, ?_⟩
  rw [heq]
  have := beforeFirst_start_newSection (beforeFirst startMarker content) payload []
    (not_occurs_beforeFirst startMarker content startMarker_ne_nil)
  simpa using this

/-- Witness for `update_readme_replaces_tail` at a concrete document. -/
theorem update_readme_replaces_tail_witness :
    ((occurs startMarker ("X<!-- AUTO_GEN_OUTPUT_START -->Y<!-- AUTO_GEN_OUTPUT_END -->".data) &&
      occurs endMarker ("X<!-- AUTO_GEN_OUTPUT_START -->Y<!-- AUTO_GEN_OUTPUT_END -->".data)) = true) ∧
    (update_readme_with_output ("X<!-- AUTO_GEN_OUTPUT_START -->Y<!-- AUTO_GEN_OUTPUT_END -->".data) ("55".data) =
      beforeFirst startMarker ("X<!-- AUTO_GEN_OUTPUT_START -->Y<!-- AUTO_GEN_OUTPUT_END -->".data) ++ newSection ("55".data) ∧
    beforeFirst startMarker (update_readme_with_output ("X<!-- AUTO_GEN_OUTPUT_START -->Y<!-- AUTO_GEN_OUTPUT_END -->".data) ("55".data)) =
      beforeFirst startMarker ("X<!-- AUTO_GEN_OUTPUT_START -->Y<!-- AUTO_GEN_OUTPUT_END -->".data)) :=
  ⟨by decide,
   update_readme_replaces_tail
     ("X<!-- AUTO_GEN_OUTPUT_START -->Y<!-- AUTO_GEN_OUTPUT_END -->".data)
     ("55".data) (by decide)⟩

/-- C9, counterexample: on a document containing the start marker but not the
end marker, the first call appends a fresh section while the second call
truncates at the pre-existing start marker, so the delimited section content
differs between the first and the second call. -/
theorem update_readme_not_idempotent_counterexample :
    sectionContent (update_readme_with_output
        (update_readme_with_output ("A<!-- AUTO_GEN_OUTPUT_START -->".data) ("P".data))
        ("P".data)) ≠
      sectionContent (update_readme_with_output
        ("A<!-- AUTO_GEN_OUTPUT_START -->".data) ("P".data)) := by decide

/-- C9 (amended): for every document in which the start marker's presence
implies the end marker's presence (in particular every document with both
markers, and every document without the start marker), updating twice with
the same payload leaves the delimited section content of the result
unchanged between the first and the second call. -/
theorem update_readme_idempotent (content payload : List Char)
    (h : occurs startMarker content = true → occurs endMarker content = true) :
    sectionContent (update_readme_with_output
        (update_readme_with_output content payload) payload) =
      sectionContent (update_readme_with_output content payload) := by
  by_cases hs : occurs startMarker content = true
  · -- replace branch: the update is literally idempotent on the document
    have hcond : (occurs startMarker content && occurs endMarker content) = true := by
      rw [hs, h hs]; rfl
    have heq1 : update_readme_with_output content payload =
        beforeFirst startMarker content ++ newSection payload := by
      simp [update_readme_with_output, hcond]
    have hP : occurs startMarker (beforeFirst startMarker content) = false :=
      not_occurs_beforeFirst startMarker content startMarker_ne_nil
    have hocc1 : occurs startMarker (update_readme_with_output content payload) = true := by
      rw [heq1]
      simpa using occurs_start_newSection (beforeFirst startMarker content) payload []
    have hocc2 : occurs endMarker (update_readme_with_output content payload) = true := by
      rw [heq1]
      simpa using occurs_end_newSection (beforeFirst startMarker content) payload []
    have heq2 : update_readme_with_output (update_readme_with_output content payload) payload =
        update_readme_with_output content payload := by
      rw [update_readme_with_output, hocc1, hocc2]
      simp only [Bool.and_self, if_true]
      rw [heq1]
      have := beforeFirst_start_newSection (beforeFirst startMarker content) payload [] hP
      simp only [List.append_nil] at this
      rw [this]
    rw [heq2]
  · -- append branch
    have hs' : occurs startMarker content = false := by
      cases hval : occurs startMarker content
      · rfl
      · exact absurd hval hs
    have hcond : (occurs startMarker content && occurs endMarker content) = false := by
      rw [hs']; rfl
    have heq1 : update_readme_with_output content payload =
        (content ++ headerChunk) ++ newSection payload ++ newlineChunk := by
      simp [update_readme_with_output, hcond, List.append_assoc]
    have hQ : occurs startMarker (content ++ headerChunk) = false :=
      occurs_append_false startMarker content headerChunk hs'
        not_occurs_start_header noCross_start_header
    have hsec1 : sectionContent (update_readme_with_output content payload) =
        some (beforeFirst endMarker (sectionTail payload)) := by
      rw [heq1]
      exact sectionContent_newSection (content ++ headerChunk) payload newlineChunk hQ
    have hocc1 : occurs startMarker (update_readme_with_output content payload) = true := by
      rw [heq1]
      exact occurs_start_newSection (content ++ headerChunk) payload newlineChunk
    have hocc2 : occurs endMarker (update_readme_with_output content payload) = true := by
      rw [heq1]
      exact occurs_end_newSection (content ++ headerChunk) payload newlineChunk
    have heq2 : update_readme_with_output (update_readme_with_output content payload) payload =
        (content ++ headerChunk) ++ newSection payload := by
      rw [update_readme_with_output, hocc1, hocc2]
      simp only [Bool.and_self, if_true]
      rw [heq1]
      rw [beforeFirst_start_newSection (content ++ headerChunk) payload newlineChunk hQ]
    rw [heq2, hsec1]
    have := sectionContent_newSection (content ++ headerChunk) payload [] hQ
    simpa using this

/-- Witness for `update_readme_idempotent` at a concrete document without
markers. -/
theorem update_readme_idempotent_witness :
    (occurs startMarker ("# README".data) = true →
      occurs endMarker ("# README".data) = true) ∧
    sectionContent (update_readme_with_output
        (update_readme_with_output ("# README".data) ("55".data)) ("55".data)) =
      sectionContent (update_readme_with_output ("# README".data) ("55".data)) :=
  ⟨by decide, update_readme_idempotent ("# README".data) ("55".data) (by decide)⟩

/-! ## The Runner: `ExecutorAgent.run_code`

`run_code` (source lines 116-179) executes the candidate with `exec` inside
a `try`, applies result extraction, and classifies raised conditions with
three `except` clauses (`SyntaxError`, `NameError`, `Exception`).  The
execution of candidate text is an oracle parameter; a raised condition is
an `Except.error` carrying its position in Python's exception hierarchy.
-/

/-- A raised Python condition, as matched by the `except` clauses of
`run_code`.  `syntaxError` and `nameError` carry their specific data;
`otherExc` is any other `Exception` subclass; `baseExc` is a
`BaseException` that is not an `Exception` (in CPython: `SystemExit`,
`KeyboardInterrupt`, `GeneratorExit`), which none of the three handlers
matches. -/
inductive PyExc where
  | syntaxError (lineno : Nat) (msg : String)
  | nameError (msg : String)
  | otherExc (typeName : String) (msg : String)
  | baseExc (typeName : String) (msg : String)
deriving DecidableEq

def exceptToSum {e a : Type} : Except e a → e ⊕ a
  | Except.error x => Sum.inl x
  | Except.ok x => Sum.inr x

theorem exceptToSum_injective {e a : Type} (x y : Except e a)
    (h : exceptToSum x = exceptToSum y) : x = y := by
  cases x <;> cases y <;> simp [exceptToSum] at h <;> simp [h]

instance {e a : Type} [DecidableEq e] [DecidableEq a] : DecidableEq (Except e a) := fun x y =>
  decidable_of_iff (exceptToSum x = exceptToSum y)
    ⟨exceptToSum_injective x y, fun h => by rw [h]⟩

/-- One name bound in the post-execution local scope: its rendering under
an f-string, and — when the value is callable — the outcome of calling it
with argument `10` (which may itself raise). -/
structure Binding where
  reprStr : String
  callAt10 : Option (Except PyExc String)
deriving DecidableEq

/-- The post-execution local scope (`local_vars`). -/
abbrev LocalScope := List (String × Binding)

/-- What `exec(code, safe_space, local_vars)` does with a given candidate,
as observed by `run_code`: raise, or terminate with the captured stdout
text and the local scope. -/
abbrev ExecOracle := String → Except PyExc (String × LocalScope)

/-- The Runner's structured outcome dictionary
`{"worked": …, "output": …, "error": …}`. -/
structure PyResult where
  worked : Bool
  output : Option String
  error : Option String
deriving DecidableEq

/-- Source order of the conventional entry-point names:
`['fibonacci', 'fib', 'calculate', 'main']`. -/
def funcNames : List String := ["fibonacci", "fib", "calculate", "main"]

/-- The loop `for func_name in [...]`: the call outcome of the first
conventional name bound to a callable value, if any. -/
def firstCallable : List String → LocalScope → Option (Except PyExc String)
  | [], _ => none
  | n :: ns, scope =>
    match scope.lookup n with
    | some b =>
      match b.callAt10 with
      | some c => some c
      | none => firstCallable ns scope
    | none => firstCallable ns scope

/-- The result-extraction block of `run_code`: the conventional-name call
runs first (and may raise); afterwards a `result` variable, when present,
overrides the reported text. -/
def extractOutput (printed : String) (scope : LocalScope) : Except PyExc String :=
  match firstCallable funcNames scope with
  | some (Except.error e) => Except.error e
  | some (Except.ok v) =>
    match scope.lookup "result" with
    | some b => Except.ok ("Result: " ++ b.reprStr)
    | none => Except.ok ("Result: " ++ v)
  | none =>
    match scope.lookup "result" with
    | some b => Except.ok ("Result: " ++ b.reprStr)
    | none => Except.ok printed

/-- The three `except` clauses of `run_code`, in source order.  A `baseExc`
matches none of them and keeps propagating. -/
def classify : PyExc → Except PyExc PyResult
  | PyExc.syntaxError lineno msg =>
      Except.ok ⟨false, none, some ("Syntax error on line " ++ toString lineno ++ ": " ++ msg)⟩
  | PyExc.nameError msg =>
      Except.ok ⟨false, none, some ("Variable or function not found: " ++ msg)⟩
  | PyExc.otherExc typeName msg =>
      Except.ok ⟨false, none, some (typeName ++ ": " ++ msg)⟩
  | PyExc.baseExc typeName msg => Except.error (PyExc.baseExc typeName msg)

/-- `ExecutorAgent.run_code`: execute the candidate, extract the reported
output, classify failures. -/
def run_code (execOracle : ExecOracle) (code : String) : Except PyExc PyResult :=
  match execOracle code with
  | Except.error e => classify e
  | Except.ok (printed, scope) =>
    match extractOutput printed scope with
    | Except.ok out => Except.ok ⟨true, some out, none⟩
    | Except.error e => classify e

/-- Is a condition inside the `Exception` hierarchy (and hence caught by
one of the three handlers)? -/
def isExceptionClass : PyExc → Bool
  | PyExc.baseExc _ _ => false
  | _ => true

/-- Did the call return a structured value (as opposed to propagating a
raised condition)? -/
def isStructured {e a : Type} : Except e a → Bool
  | Except.ok _ => true
  | Except.error _ => false

/-! ## C2: the evaluation context of `run_code` -/

/-- Names exported by CPython's `builtins` module (a representative subset;
every listed name genuinely is a CPython builtin).  Used to interpret the
`'__builtins__': __builtins__` entry of `safe_space`. -/
def pythonBuiltinNames : List String :=
  ["abs", "breakpoint", "callable", "compile", "eval", "exec", "getattr",
   "globals", "input", "len", "max", "min", "open", "print", "range",
   "setattr", "sum", "vars", "__import__"]

/-- A value bound in the `exec` globals: one of the explicitly whitelisted
builtin functions, or a whole module exporting a set of names. -/
inductive SpaceEntry where
  | builtinFn : SpaceEntry
  | module : List String → SpaceEntry
deriving DecidableEq

/-- The `safe_space` globals dict built by `run_code` (source lines
126-134).  Its first entry hands the full `builtins` module to the executed
candidate. -/
def safe_space : List (String × SpaceEntry) :=
  [("__builtins__", SpaceEntry.module pythonBuiltinNames),
   ("print", SpaceEntry.builtinFn), ("range", SpaceEntry.builtinFn),
   ("len", SpaceEntry.builtinFn), ("sum", SpaceEntry.builtinFn),
   ("max", SpaceEntry.builtinFn), ("min", SpaceEntry.builtinFn)]

/-- The names candidate code can reach in a globals dict: names bound
directly, plus every name exported by a module bound there (Python name
lookup falls back to the `__builtins__` member of the globals). -/
def exposedNames (env : List (String × SpaceEntry)) : List String :=
  env.foldr (fun p acc =>
    match p.2 with
    | SpaceEntry.builtinFn => p.1 :: acc
    | SpaceEntry.module ns => p.1 :: (ns ++ acc)) []

/-- The allow-list the spec describes (printing, numeric/length/aggregate
built-ins): spec-side definition for comparison with the code's context. -/
def specAllowList : List String := ["print", "range", "len", "sum", "max", "min"]

/-- C2: the code contradicts the claim (and its own comments): `safe_space`
binds `'__builtins__'` to the real builtins module, so candidate code can
reach `open`, `__import__` and `eval` — file-system and process-control
capability well beyond the claimed minimal allow-list. -/
theorem sandbox_exposes_full_builtins :
    safe_space.lookup "__builtins__" = some (SpaceEntry.module pythonBuiltinNames) ∧
    "open" ∈ exposedNames safe_space ∧
    "__import__" ∈ exposedNames safe_space ∧
    "eval" ∈ exposedNames safe_space ∧
    "open" ∉ specAllowList ∧
    "__import__" ∉ specAllowList := by decide

/-! ## C3: result-extraction priority -/

/-- Spec-side formalisation of the reported-result priority (spec section
4.3): a `result` variable wins; else the first conventional callable,
invoked at `10`, when that call returns; else the captured stdout text. -/
def specReported (printed : String) (scope : LocalScope) : Option String :=
  match scope.lookup "result" with
  | some b => some ("Result: " ++ b.reprStr)
  | none =>
    match firstCallable funcNames scope with
    | some (Except.ok v) => some ("Result: " ++ v)
    | some (Except.error _) => none
    | none => some printed

/-- C3: for every candidate whose execution completes without raising, the
Runner's reported output follows the spec's priority order: the `result`
variable's value, else the first conventional callable's return value at
argument `10`, else the captured standard output. -/
theorem run_code_result_priority (execOracle : ExecOracle) (code : String)
    (printed : String) (scope : LocalScope) (r : PyResult)
    (hexec : execOracle code = Except.ok (printed, scope))
    (hrun : run_code execOracle code = Except.ok r) (hw : r.worked = true) :
    r.output = specReported printed scope := by
  unfold run_code at hrun
  rw [hexec] at hrun
  unfold specReported
  cases hfc : firstCallable funcNames scope with
  | none =>
    cases hlk : scope.lookup "result" with
    | some b =>
      simp only [extractOutput, hfc, hlk] at hrun
      cases hrun
      rfl
    | none =>
      simp only [extractOutput, hfc, hlk] at hrun
      cases hrun
      rfl
  | some c =>
    cases c with
    | ok v =>
      cases hlk : scope.lookup "result" with
      | some b =>
        simp only [extractOutput, hfc, hlk] at hrun
        cases hrun
        rfl
      | none =>
        simp only [extractOutput, hfc, hlk] at hrun
        cases hrun
        rfl
    | error e =>
      simp only [extractOutput, hfc] at hrun
      cases e <;> simp only [classify] at hrun <;> cases hrun <;> simp at hw

/-- Oracle of a successful execution that leaves a `result` variable. -/
def resultVarOracle : ExecOracle := fun _ =>
  Except.ok ("", [("result", ⟨"55", none⟩)])

/-- Witness for `run_code_result_priority` at a concrete successful
execution. -/
theorem run_code_result_priority_witness :
    resultVarOracle "result = 55" = Except.ok ("", [("result", ⟨"55", none⟩)]) ∧
    run_code resultVarOracle "result = 55" = Except.ok ⟨true, some "Result: 55", none⟩ ∧
    (⟨true, some "Result: 55", none⟩ : PyResult).worked = true ∧
    (⟨true, some "Result: 55", none⟩ : PyResult).output = specReported "" [("result", ⟨"55", none⟩)] :=
  ⟨rfl, rfl, rfl,
   run_code_result_priority resultVarOracle "result = 55" ""
     [("result", ⟨"55", none⟩)] ⟨true, some "Result: 55", none⟩ rfl rfl rfl⟩

/-! ## C6: failure-classification taxonomy -/

theorem append_ne_empty_left (s t : String) (hs : s.length ≠ 0) : s ++ t ≠ "" := by
  intro hc
  have hlen := congrArg String.length hc
  rw [String.length_append] at hlen
  simp only [String.length] at hlen
  simp at hlen
  omega

/-- C6 (amended): a parse failure is classified in the SyntaxError class
with the parser's line number and message inside a non-empty detail; an
undefined-symbol failure in the NameError class with a non-empty detail;
any other raised condition that derives from `Exception` as a generic
runtime error carrying the type name and message, non-empty; each yields
`worked = false`.  (A raised condition outside the `Exception` hierarchy is
not classified; see the counterexample.) -/
theorem run_code_error_taxonomy (execOracle : ExecOracle) (code : String) :
    (∀ lineno msg, execOracle code = Except.error (PyExc.syntaxError lineno msg) →
      run_code execOracle code = Except.ok
        ⟨false, none, some ("Syntax error on line " ++ toString lineno ++ ": " ++ msg)⟩ ∧
      ("Syntax error on line " ++ toString lineno ++ ": " ++ msg) ≠ "" ∧
      occurs (toString lineno).data
        ("Syntax error on line " ++ toString lineno ++ ": " ++ msg).data = true) ∧
    (∀ msg, execOracle code = Except.error (PyExc.nameError msg) →
      run_code execOracle code = Except.ok
        ⟨false, none, some ("Variable or function not found: " ++ msg)⟩ ∧
      ("Variable or function not found: " ++ msg) ≠ "") ∧
    (∀ typeName msg, execOracle code = Except.error (PyExc.otherExc typeName msg) →
      run_code execOracle code = Except.ok ⟨false, none, some (typeName ++ ": " ++ msg)⟩ ∧
      (typeName ++ ": " ++ msg) ≠ "") := by
  refine ⟨fun lineno msg h => ⟨?_, ?_, ?_⟩, fun msg h => ⟨?_, ?_⟩, fun typeName msg h => ⟨?_, ?_⟩⟩
  · simp [run_code, h, classify]
  · rw [String.append_assoc, String.append_assoc]
    exact append_ne_empty_left _ _ (by decide)
  · exact occurs_of_eq _ _ ("Syntax error on line ".data) ((": " ++ msg).data)
      (by simp [String.data_append, List.append_assoc])
  · simp [run_code, h, classify]
  · exact append_ne_empty_left _ _ (by decide)
  · simp [run_code, h, classify]
  · rw [String.append_assoc]
    intro hc
    have hlen := congrArg String.length hc
    rw [String.length_append, String.length_append] at hlen
    rw [show (": ").length = 2 from rfl, show ("" : String).length = 0 from rfl] at hlen
    omega

/-- Oracle of a candidate whose parse fails on line 3. -/
def syntaxErrOracle : ExecOracle := fun _ =>
  Except.error (PyExc.syntaxError 3 "invalid syntax")

/-- Witness for `run_code_error_taxonomy` at a concrete parse failure. -/
theorem run_code_error_taxonomy_witness :
    syntaxErrOracle "def f(:" = Except.error (PyExc.syntaxError 3 "invalid syntax") ∧
    (run_code syntaxErrOracle "def f(:" = Except.ok
        ⟨false, none, some ("Syntax error on line " ++ toString 3 ++ ": " ++ "invalid syntax")⟩ ∧
      ("Syntax error on line " ++ toString 3 ++ ": " ++ "invalid syntax") ≠ "" ∧
      occurs (toString 3).data
        ("Syntax error on line " ++ toString 3 ++ ": " ++ "invalid syntax").data = true) :=
  ⟨rfl, (run_code_error_taxonomy syntaxErrOracle "def f(:").1 3 "invalid syntax" rfl⟩

/-- Oracle of a candidate that raises `SystemExit`, which in CPython derives
from `BaseException` but not from `Exception`. -/
def systemExitOracle : ExecOracle := fun _ =>
  Except.error (PyExc.baseExc "SystemExit" "")

/-- C6, counterexample: a candidate raising `SystemExit` is a raised
condition that none of the three handlers classifies: `run_code` propagates
it instead of producing a generic-runtime-error outcome, refuting the "any
other raised condition" clause as stated. -/
theorem run_code_systemexit_unclassified :
    run_code systemExitOracle "raise SystemExit" =
      Except.error (PyExc.baseExc "SystemExit" "") ∧
    isStructured (run_code systemExitOracle "raise SystemExit") = false :=
  ⟨rfl, rfl⟩

/-- Oracle of a candidate that raises `KeyboardInterrupt` (likewise outside
the `Exception` hierarchy). -/
def keyboardInterruptOracle : ExecOracle := fun _ =>
  Except.error (PyExc.baseExc "KeyboardInterrupt" "")

/-- C5, counterexample: `run_code` does not digest every raised condition
into a structured outcome — a `KeyboardInterrupt` raised by the candidate
crosses the Runner's component boundary undigested. -/
theorem run_code_propagates_base_exception :
    isStructured (run_code keyboardInterruptOracle "raise KeyboardInterrupt") = false ∧
    run_code keyboardInterruptOracle "raise KeyboardInterrupt" =
      Except.error (PyExc.baseExc "KeyboardInterrupt" "") :=
  ⟨rfl, rfl⟩

/-! ## Text helpers: Python `str.replace`, `str.strip`, `str.upper`, `", ".join` -/

/-- Python `str.replace` (all non-overlapping occurrences, left to right),
written with explicit fuel so the recursion is structural; fuel
`l.length` suffices for a nonempty pattern. -/
def replaceFuel (pat repl : List Char) : Nat → List Char → List Char
  | 0, l => l
  | fuel + 1, l =>
    match l with
    | [] => []
    | c :: cs =>
      if pat.isPrefixOf (c :: cs) then
        repl ++ replaceFuel pat repl fuel ((c :: cs).drop pat.length)
      else c :: replaceFuel pat repl fuel cs

def pyReplace (s pat repl : String) : String :=
  ⟨replaceFuel pat.data repl.data s.data.length s.data⟩

/-- Python whitespace test used by `str.strip`. -/
def isPySpace (c : Char) : Bool :=
  (c == ' ') || (c == '\t') || (c == '\n') || (c == '\r') || (c == '\x0b') || (c == '\x0c')

def pyStrip (s : String) : String :=
  ⟨((s.data.dropWhile isPySpace).reverse.dropWhile isPySpace).reverse⟩

def pyUpper (s : String) : String := ⟨s.data.map Char.toUpper⟩

def joinSep (sep : String) : List String → String
  | [] => ""
  | [x] => x
  | x :: y :: xs => x ++ sep ++ joinSep sep (y :: xs)

/-! ## The Generator: `CoderAgent.write_code`

`write_code` (source lines 56-105) increments the agent's persistent
`self.attempt` counter, builds an instruction, calls the completion service
inside `try`, strips code-fence markup, and on failure returns the
placeholder `f"# Error: {e}"`.  The completion service is an oracle
parameter; the counter is threaded state.
-/

/-- A completion-service oracle: instruction text to completion text, or a
raised failure (network/auth/quota) carrying its message. -/
abbrev AiOracle := String → Except String String

/-- The instruction used when a prior error message is passed along. -/
def fixInstruction (task errMsg : String) : String :=
  "The code you wrote before had this problem: " ++ errMsg ++
    "\n\nOriginal task: " ++ task ++
    "\n\nPlease write working Python code that fixes this issue. Just give me the code, no explanations."

/-- The intentionally-incomplete instruction of the very first attempt. -/
def firstInstruction (task : String) : String :=
  task ++
    "\n\nWrite Python code but make it incomplete (like leaving a TODO comment).\nThis helps demonstrate how the system fixes itself."

/-- The instruction of every later attempt without a prior error. -/
def laterInstruction (task : String) : String :=
  task ++ "\n\nWrite complete, working Python code. Just the code, nothing else."

/-- Python truthiness of the `error_msg` parameter (`None` and `""` are
falsy). -/
def pyTruthy : Option String → Bool
  | none => false
  | some s => !(s == "")

/-- The instruction `write_code` sends, as a function of the
post-increment attempt counter. -/
def instructionFor (attempt : Nat) (task : String) (errMsg : Option String) : String :=
  if pyTruthy errMsg then fixInstruction task (errMsg.getD "")
  else if attempt == 1 then firstInstruction task
  else laterInstruction task

/-- The cleanup `raw.replace("```python", "").replace("```", "").strip()`. -/
def cleanCode (raw : String) : String :=
  pyStrip (pyReplace (pyReplace raw "```python" "") "```" "")

/-- `CoderAgent.write_code`: returns the candidate text and the updated
attempt counter. -/
def write_code (ai : AiOracle) (attempt : Nat) (task : String) (errMsg : Option String) :
    String × Nat :=
  match ai (instructionFor (attempt + 1) task errMsg) with
  | Except.ok raw => (cleanCode raw, attempt + 1)
  | Except.error e => ("# Error: " ++ e, attempt + 1)

/-! ## The Reviewer: `ReviewerAgent.review` (source lines 191-236) -/

/-- The Reviewer's verdict dictionary `{"approved": …, "feedback": …}`. -/
structure ReviewVerdict where
  approved : Bool
  feedback : String
deriving DecidableEq

/-- The two local heuristic checks. -/
def heurIssues (code : String) : List String :=
  (if occurs ("TODO".data) code.data || occurs ("pass".data) code.data then
    ["Code looks incomplete (has TODO or pass)"]
  else []) ++
  (if (pyStrip code).length < 20 then ["Code seems too short to be complete"] else [])

/-- The review prompt f-string. -/
def reviewPrompt (code task : String) : String :=
  "Review this Python code briefly:\n\n```python\n" ++ code ++
    "\n```\n\nTask it should solve: " ++ task ++
    "\n\nJust say \"APPROVED\" if it looks complete and correct, or briefly explain what's wrong."

/-- The fallback verdict of the bare `except:` clause: approved iff the
heuristics found nothing, feedback the joined issue list. -/
def reviewFallback (code : String) : ReviewVerdict :=
  match heurIssues code with
  | [] => ⟨true, "Basic checks passed"⟩
  | issue :: rest => ⟨false, joinSep ", " (issue :: rest)⟩

/-- `ReviewerAgent.review`: service judgment with "APPROVED" containment on
the upper-cased response; on any service failure, the heuristic fallback. -/
def review (ai : AiOracle) (code task : String) : ReviewVerdict :=
  match ai (reviewPrompt code task) with
  | Except.ok resp =>
    if occurs ("APPROVED".data) (pyUpper resp).data then ⟨true, "Looks good"⟩
    else ⟨false, resp⟩
  | Except.error _ => reviewFallback code

/-! ## The Coordinator: `Orchestrator.run_task` (source lines 247-287)

The loop `for attempt in range(1, max_tries + 1)` is recursion on the
number of remaining iterations; the `result` local is an `Option PyResult`
(`none` = never assigned).  The stage behaviours are parameters; the
Generator is stateful.  The loop also records an event trace: which stage
ran on which attempt and what was passed. -/

/-- One observable stage invocation, labelled with the attempt number. -/
inductive Ev where
  | gen (attempt : Nat) (errMsg : Option String)
  | review (attempt : Nat) (approved : Bool) (feedback : String)
  | exec (attempt : Nat)
deriving DecidableEq

def evAttempt : Ev → Nat
  | Ev.gen a _ => a
  | Ev.review a _ _ => a
  | Ev.exec a => a

/-- The error text passed to Generate: `None` on attempt 1, else the
previous round's `result["error"]`.  (The inner `none` case is unreachable
from the entry point: after attempt 1 the `result` local is always
assigned.) -/
def errMsgFor (attempt : Nat) (prev : Option PyResult) : Option String :=
  if attempt == 1 then none
  else
    match prev with
    | some r => r.error
    | none => none

/-- Loop state at exit: the `result` local (if assigned), the Generator
state, and the event trace. -/
structure LoopTrace (σ : Type) where
  result : Option PyResult
  genSt : σ
  events : List Ev
deriving DecidableEq

/-- The attempt loop of `run_task`. -/
def runLoop {σ : Type} (gen : σ → String → Option String → String × σ)
    (rev : String → ReviewVerdict) (run : String → PyResult)
    (task : String) (maxTries : Nat) :
    Nat → Nat → σ → Option PyResult → LoopTrace σ
  | 0, _, st, prev => ⟨prev, st, []⟩
  | remaining + 1, attempt, st, prev =>
    let errMsg := errMsgFor attempt prev
    let step := gen st task errMsg
    let v := rev step.1
    if v.approved = false ∧ attempt < maxTries then
      let t := runLoop gen rev run task maxTries remaining (attempt + 1) step.2
        (some ⟨false, none, some v.feedback⟩)
      ⟨t.result, t.genSt, Ev.gen attempt errMsg :: Ev.review attempt v.approved v.feedback :: t.events⟩
    else
      let r := run step.1
      if r.worked then
        ⟨some r, step.2,
          [Ev.gen attempt errMsg, Ev.review attempt v.approved v.feedback, Ev.exec attempt]⟩
      else
        let t := runLoop gen rev run task maxTries remaining (attempt + 1) step.2 (some r)
        ⟨t.result, t.genSt,
          Ev.gen attempt errMsg :: Ev.review attempt v.approved v.feedback :: Ev.exec attempt :: t.events⟩

/-- Falling off the loop with the `result` local never assigned makes the
final `return result` raise `UnboundLocalError`. -/
inductive RunErr where
  | unboundLocal
deriving DecidableEq

/-- What one `run_task` invocation produces: the returned outcome (or the
raised unbound-local error), the Generator state left behind, and the
event trace. -/
structure RunOutcome (σ : Type) where
  result : Except RunErr PyResult
  genSt : σ
  events : List Ev
deriving DecidableEq

/-- `Orchestrator.run_task`: run the attempt loop from attempt 1 with no
prior result. -/
def run_task {σ : Type} (gen : σ → String → Option String → String × σ)
    (rev : String → ReviewVerdict) (run : String → PyResult)
    (task : String) (maxTries : Nat) (st : σ) : RunOutcome σ :=
  let t := runLoop gen rev run task maxTries maxTries 1 st none
  match t.result with
  | some r => ⟨Except.ok r, t.genSt, t.events⟩
  | none => ⟨Except.error RunErr.unboundLocal, t.genSt, t.events⟩

/-- Number of Runner executions recorded in a trace. -/
def execCount (events : List Ev) : Nat :=
  events.countP fun e =>
    match e with
    | Ev.exec _ => true
    | _ => false

/-- The attempt numbers of the Generate calls, in order. -/
def genAttempts (events : List Ev) : List Nat :=
  events.filterMap fun e =>
    match e with
    | Ev.gen a _ => some a
    | _ => none

theorem run_task_events {σ : Type} (gen : σ → String → Option String → String × σ)
    (rev : String → ReviewVerdict) (run : String → PyResult)
    (task : String) (maxTries : Nat) (st : σ) :
    (run_task gen rev run task maxTries st).events =
      (runLoop gen rev run task maxTries maxTries 1 st none).events := by
  unfold run_task
  cases hres : (runLoop gen rev run task maxTries maxTries 1 st none).result with
  | none => simp [hres]
  | some r => simp [hres]

theorem run_task_genSt {σ : Type} (gen : σ → String → Option String → String × σ)
    (rev : String → ReviewVerdict) (run : String → PyResult)
    (task : String) (maxTries : Nat) (st : σ) :
    (run_task gen rev run task maxTries st).genSt =
      (runLoop gen rev run task maxTries maxTries 1 st none).genSt := by
  unfold run_task
  cases hres : (runLoop gen rev run task maxTries maxTries 1 st none).result with
  | none => simp [hres]
  | some r => simp [hres]

/-- Case analysis of one loop iteration.  Either the Reviewer rejected with
attempts to spare (no execution, the feedback becomes the synthesized
failure), or the Runner succeeded (loop terminates), or the Runner failed
(loop continues with the failure outcome).  In the two executing branches a
recorded rejection implies the bound was reached. -/
theorem runLoop_succ_shape {σ : Type} (gen : σ → String → Option String → String × σ)
    (rev : String → ReviewVerdict) (run : String → PyResult)
    (task : String) (maxTries n attempt : Nat) (st : σ) (prev : Option PyResult) :
    (∃ st2 fb,
      st2 = (gen st task (errMsgFor attempt prev)).2 ∧
      attempt < maxTries ∧
      runLoop gen rev run task maxTries (n + 1) attempt st prev =
        ⟨(runLoop gen rev run task maxTries n (attempt + 1) st2 (some ⟨false, none, some fb⟩)).result,
         (runLoop gen rev run task maxTries n (attempt + 1) st2 (some ⟨false, none, some fb⟩)).genSt,
         Ev.gen attempt (errMsgFor attempt prev) :: Ev.review attempt false fb ::
           (runLoop gen rev run task maxTries n (attempt + 1) st2 (some ⟨false, none, some fb⟩)).events⟩) ∨
    (∃ st2 app fb r,
      st2 = (gen st task (errMsgFor attempt prev)).2 ∧
      runLoop gen rev run task maxTries (n + 1) attempt st prev =
        ⟨some r, st2,
          [Ev.gen attempt (errMsgFor attempt prev), Ev.review attempt app fb, Ev.exec attempt]⟩ ∧
      (app = false → maxTries ≤ attempt)) ∨
    (∃ st2 app fb r,
      st2 = (gen st task (errMsgFor attempt prev)).2 ∧
      runLoop gen rev run task maxTries (n + 1) attempt st prev =
        ⟨(runLoop gen rev run task maxTries n (attempt + 1) st2 (some r)).result,
         (runLoop gen rev run task maxTries n (attempt + 1) st2 (some r)).genSt,
         Ev.gen attempt (errMsgFor attempt prev) :: Ev.review attempt app fb :: Ev.exec attempt ::
           (runLoop gen rev run task maxTries n (attempt + 1) st2 (some r)).events⟩ ∧
      (app = false → maxTries ≤ attempt)) := by
  by_cases hbr : (rev (gen st task (errMsgFor attempt prev)).1).approved = false ∧ attempt < maxTries
  · left
    refine ⟨(gen st task (errMsgFor attempt prev)).2,
      (rev (gen st task (errMsgFor attempt prev)).1).feedback, rfl, hbr.2, ?_⟩
    simp only [runLoop]
    rw [if_pos hbr, hbr.1]
  · have himp : (rev (gen st task (errMsgFor attempt prev)).1).approved = false → maxTries ≤ attempt := by
      intro happ
      by_contra hcon
      exact hbr ⟨happ, by omega⟩
    by_cases hwk : (run (gen st task (errMsgFor attempt prev)).1).worked = true
    · right; left
      refine ⟨(gen st task (errMsgFor attempt prev)).2,
        (rev (gen st task (errMsgFor attempt prev)).1).approved,
        (rev (gen st task (errMsgFor attempt prev)).1).feedback,
        run (gen st task (errMsgFor attempt prev)).1, rfl, ?_, himp⟩
      simp only [runLoop]
      rw [if_neg hbr, if_pos hwk]
    · right; right
      refine ⟨(gen st task (errMsgFor attempt prev)).2,
        (rev (gen st task (errMsgFor attempt prev)).1).approved,
        (rev (gen st task (errMsgFor attempt prev)).1).feedback,
        run (gen st task (errMsgFor attempt prev)).1, rfl, ?_, himp⟩
      simp only [runLoop]
      rw [if_neg hbr, if_neg hwk]

theorem execCount_runLoop_le {σ : Type} (gen : σ → String → Option String → String × σ)
    (rev : String → ReviewVerdict) (run : String → PyResult)
    (task : String) (maxTries : Nat) :
    ∀ (remaining attempt : Nat) (st : σ) (prev : Option PyResult),
      execCount (runLoop gen rev run task maxTries remaining attempt st prev).events ≤ remaining := by
  intro remaining
  induction remaining with
  | zero => intro attempt st prev; simp [runLoop, execCount]
  | succ n ih =>
    intro attempt st prev
    rcases runLoop_succ_shape gen rev run task maxTries n attempt st prev with
      ⟨st2, fb, -, -, heq⟩ | ⟨st2, app, fb, r, -, heq, -⟩ | ⟨st2, app, fb, r, -, heq, -⟩
    · rw [heq]
      have hrec := ih (attempt + 1) st2 (some ⟨false, none, some fb⟩)
      simp only [execCount, List.countP_cons] at hrec ⊢
      simp
      omega
    · rw [heq]
      simp [execCount, List.countP_cons]
    · rw [heq]
      have hrec := ih (attempt + 1) st2 (some r)
      simp only [execCount, List.countP_cons] at hrec ⊢
      simp
      omega

theorem runLoop_result_isSome {σ : Type} (gen : σ → String → Option String → String × σ)
    (rev : String → ReviewVerdict) (run : String → PyResult)
    (task : String) (maxTries : Nat) :
    ∀ (remaining attempt : Nat) (st : σ) (prev : Option PyResult),
      (1 ≤ remaining ∨ prev.isSome = true) →
      (runLoop gen rev run task maxTries remaining attempt st prev).result.isSome = true := by
  intro remaining
  induction remaining with
  | zero =>
    intro attempt st prev h
    rcases h with h | h
    · omega
    · simpa [runLoop] using h
  | succ n ih =>
    intro attempt st prev _
    rcases runLoop_succ_shape gen rev run task maxTries n attempt st prev with
      ⟨st2, fb, -, -, heq⟩ | ⟨st2, app, fb, r, -, heq, -⟩ | ⟨st2, app, fb, r, -, heq, -⟩
    · rw [heq]
      exact ih (attempt + 1) st2 (some ⟨false, none, some fb⟩) (Or.inr rfl)
    · rw [heq]
      rfl
    · rw [heq]
      exact ih (attempt + 1) st2 (some r) (Or.inr rfl)

theorem genAttempts_runLoop {σ : Type} (gen : σ → String → Option String → String × σ)
    (rev : String → ReviewVerdict) (run : String → PyResult)
    (task : String) (maxTries : Nat) :
    ∀ (remaining attempt : Nat) (st : σ) (prev : Option PyResult),
      ∃ k, k ≤ remaining ∧ (1 ≤ remaining → 1 ≤ k) ∧
        genAttempts (runLoop gen rev run task maxTries remaining attempt st prev).events =
          List.range' attempt k := by
  intro remaining
  induction remaining with
  | zero =>
    intro attempt st prev
    exact ⟨0, le_refl _, by omega, by simp [runLoop, genAttempts]⟩
  | succ n ih =>
    intro attempt st prev
    rcases runLoop_succ_shape gen rev run task maxTries n attempt st prev with
      ⟨st2, fb, -, -, heq⟩ | ⟨st2, app, fb, r, -, heq, -⟩ | ⟨st2, app, fb, r, -, heq, -⟩
    · obtain ⟨k, hk1, -, hg⟩ := ih (attempt + 1) st2 (some ⟨false, none, some fb⟩)
      refine ⟨k + 1, by omega, by omega, ?_⟩
      rw [heq]
      simp only [genAttempts, List.filterMap_cons] at hg ⊢
      simp [hg, List.range'_succ]
    · refine ⟨1, by omega, by omega, ?_⟩
      rw [heq]
      simp [genAttempts, List.range'_succ]
    · obtain ⟨k, hk1, -, hg⟩ := ih (attempt + 1) st2 (some r)
      refine ⟨k + 1, by omega, by omega, ?_⟩
      rw [heq]
      simp only [genAttempts, List.filterMap_cons] at hg ⊢
      simp [hg, List.range'_succ]

theorem runLoop_events_attempt_le {σ : Type} (gen : σ → String → Option String → String × σ)
    (rev : String → ReviewVerdict) (run : String → PyResult)
    (task : String) (maxTries : Nat) :
    ∀ (remaining attempt : Nat) (st : σ) (prev : Option PyResult) (e : Ev),
      e ∈ (runLoop gen rev run task maxTries remaining attempt st prev).events →
      attempt ≤ evAttempt e := by
  intro remaining
  induction remaining with
  | zero => intro attempt st prev e he; simp [runLoop] at he
  | succ n ih =>
    intro attempt st prev e he
    rcases runLoop_succ_shape gen rev run task maxTries n attempt st prev with
      ⟨st2, fb, -, -, heq⟩ | ⟨st2, app, fb, r, -, heq, -⟩ | ⟨st2, app, fb, r, -, heq, -⟩
    · rw [heq] at he
      rcases List.mem_cons.1 he with rfl | he2
      · simp [evAttempt]
      rcases List.mem_cons.1 he2 with rfl | he3
      · simp [evAttempt]
      · have := ih (attempt + 1) st2 (some ⟨false, none, some fb⟩) e he3
        omega
    · rw [heq] at he
      rcases List.mem_cons.1 he with rfl | he2
      · simp [evAttempt]
      rcases List.mem_cons.1 he2 with rfl | he3
      · simp [evAttempt]
      rcases List.mem_cons.1 he3 with rfl | he4
      · simp [evAttempt]
      · simp at he4
    · rw [heq] at he
      rcases List.mem_cons.1 he with rfl | he2
      · simp [evAttempt]
      rcases List.mem_cons.1 he2 with rfl | he3
      · simp [evAttempt]
      rcases List.mem_cons.1 he3 with rfl | he4
      · simp [evAttempt]
      · have := ih (attempt + 1) st2 (some r) e he4
        omega

theorem runLoop_events_head {σ : Type} (gen : σ → String → Option String → String × σ)
    (rev : String → ReviewVerdict) (run : String → PyResult)
    (task : String) (maxTries n attempt : Nat) (st : σ) (prev : Option PyResult) :
    ∃ rest, (runLoop gen rev run task maxTries (n + 1) attempt st prev).events =
      Ev.gen attempt (errMsgFor attempt prev) :: rest := by
  rcases runLoop_succ_shape gen rev run task maxTries n attempt st prev with
    ⟨st2, fb, -, -, heq⟩ | ⟨st2, app, fb, r, -, heq, -⟩ | ⟨st2, app, fb, r, -, heq, -⟩ <;>
    exact ⟨_, by rw [heq]⟩

theorem runLoop_reject_aux {σ : Type} (gen : σ → String → Option String → String × σ)
    (rev : String → ReviewVerdict) (run : String → PyResult)
    (task : String) (maxTries : Nat) :
    ∀ (remaining attempt : Nat) (st : σ) (prev : Option PyResult),
      1 ≤ attempt → attempt + remaining = maxTries + 1 →
      ∀ (i : Nat) (fb : String),
        Ev.review i false fb ∈ (runLoop gen rev run task maxTries remaining attempt st prev).events →
        i < maxTries →
        Ev.exec i ∉ (runLoop gen rev run task maxTries remaining attempt st prev).events ∧
        Ev.gen (i + 1) (some fb) ∈ (runLoop gen rev run task maxTries remaining attempt st prev).events := by
  intro remaining
  induction remaining with
  | zero =>
    intro attempt st prev _ _ i fb hmem _
    simp [runLoop] at hmem
  | succ n ih =>
    intro attempt st prev hatt hinv i fb hmem hi
    rcases runLoop_succ_shape gen rev run task maxTries n attempt st prev with
      ⟨st2, fb2, -, hlt, heq⟩ | ⟨st2, app, fb2, r, -, heq, himp⟩ | ⟨st2, app, fb2, r, -, heq, himp⟩
    · -- reject branch
      rw [heq] at hmem ⊢
      rcases List.mem_cons.1 hmem with hc1 | hmem2
      · exact Ev.noConfusion hc1
      rcases List.mem_cons.1 hmem2 with hc2 | hmem3
      · -- the recorded rejection is this attempt
        injection hc2 with hia hap hfb
        subst hia
        subst hfb
        have hn1 : 1 ≤ n := by omega
        obtain ⟨m, rfl⟩ : ∃ m, n = m + 1 := ⟨n - 1, by omega⟩
        obtain ⟨rest, hrest⟩ :=
          runLoop_events_head gen rev run task maxTries m (i + 1) st2 (some ⟨false, none, some fb⟩)
        have hne1 : (i + 1 == 1) = false := by
          rw [beq_eq_false_iff_ne]
          omega
        have herr : errMsgFor (i + 1) (some (⟨false, none, some fb⟩ : PyResult)) = some fb := by
          simp [errMsgFor, hne1]
        constructor
        · intro hex
          rcases List.mem_cons.1 hex with hx1 | hx2
          · exact Ev.noConfusion hx1
          rcases List.mem_cons.1 hx2 with hx3 | hx4
          · exact Ev.noConfusion hx3
          · have := runLoop_events_attempt_le gen rev run task maxTries (m + 1) (i + 1) st2
              (some ⟨false, none, some fb⟩) (Ev.exec i) hx4
            simp only [evAttempt] at this
            omega
        · refine List.mem_cons.2 (Or.inr (List.mem_cons.2 (Or.inr ?_)))
          rw [hrest, herr]
          exact List.mem_cons_self _ _
      · -- the rejection sits in the recursive trace
        have hbound := runLoop_events_attempt_le gen rev run task maxTries n (attempt + 1) st2
          (some ⟨false, none, some fb2⟩) (Ev.review i false fb) hmem3
        simp only [evAttempt] at hbound
        obtain ⟨hnot, hgen⟩ := ih (attempt + 1) st2 (some ⟨false, none, some fb2⟩)
          (by omega) (by omega) i fb hmem3 hi
        constructor
        · intro hex
          rcases List.mem_cons.1 hex with hx1 | hx2
          · exact Ev.noConfusion hx1
          rcases List.mem_cons.1 hx2 with hx3 | hx4
          · exact Ev.noConfusion hx3
          · exact hnot hx4
        · exact List.mem_cons.2 (Or.inr (List.mem_cons.2 (Or.inr hgen)))
    · -- terminating execution branch
      rw [heq] at hmem
      rcases List.mem_cons.1 hmem with hc1 | hmem2
      · exact Ev.noConfusion hc1
      rcases List.mem_cons.1 hmem2 with hc2 | hmem3
      · injection hc2 with hia hap hfb
        have := himp hap.symm
        omega
      rcases List.mem_cons.1 hmem3 with hc3 | hmem4
      · exact Ev.noConfusion hc3
      · simp at hmem4
    · -- failing execution branch
      rw [heq] at hmem ⊢
      rcases List.mem_cons.1 hmem with hc1 | hmem2
      · exact Ev.noConfusion hc1
      rcases List.mem_cons.1 hmem2 with hc2 | hmem3
      · injection hc2 with hia hap hfb
        have := himp hap.symm
        omega
      rcases List.mem_cons.1 hmem3 with hc3 | hmem4
      · exact Ev.noConfusion hc3
      · have hbound := runLoop_events_attempt_le gen rev run task maxTries n (attempt + 1) st2
          (some r) (Ev.review i false fb) hmem4
        simp only [evAttempt] at hbound
        obtain ⟨hnot, hgen⟩ := ih (attempt + 1) st2 (some r) (by omega) (by omega) i fb hmem4 hi
        constructor
        · intro hex
          rcases List.mem_cons.1 hex with hx1 | hx2
          · exact Ev.noConfusion hx1
          rcases List.mem_cons.1 hx2 with hx3 | hx4
          · exact Ev.noConfusion hx3
          rcases List.mem_cons.1 hx4 with hx5 | hx6
          · injection hx5 with hia
            omega
          · exact hnot hx6
        · exact List.mem_cons.2 (Or.inr (List.mem_cons.2 (Or.inr (List.mem_cons.2 (Or.inr hgen)))))

/-! ## Claim theorems for the Coordinator -/

/-- C1: for every `maxTries ≥ 1` and all stage behaviours, one `run_task`
invocation returns exactly one terminal outcome (never the unbound-local
error), performs at most `maxTries` Runner executions, and its attempt
counter over the Generate rounds is exactly `1, 2, …, k` for some
`k ≤ maxTries` — strictly increasing and bounded by `maxTries`. -/
theorem run_task_bounded {σ : Type} (gen : σ → String → Option String → String × σ)
    (rev : String → ReviewVerdict) (run : String → PyResult)
    (task : String) (maxTries : Nat) (st : σ) (h : 1 ≤ maxTries) :
    (∃ r, (run_task gen rev run task maxTries st).result = Except.ok r) ∧
    execCount (run_task gen rev run task maxTries st).events ≤ maxTries ∧
    ∃ k, 1 ≤ k ∧ k ≤ maxTries ∧
      genAttempts (run_task gen rev run task maxTries st).events = List.range' 1 k := by
  have hsome := runLoop_result_isSome gen rev run task maxTries maxTries 1 st none (Or.inl h)
  obtain ⟨r, hr⟩ := Option.isSome_iff_exists.1 hsome
  refine ⟨⟨r, ?_⟩, ?_, ?_⟩
  · simp [run_task, hr]
  · rw [run_task_events]
    exact execCount_runLoop_le gen rev run task maxTries maxTries 1 st none
  · obtain ⟨k, hk1, hk2, hg⟩ := genAttempts_runLoop gen rev run task maxTries maxTries 1 st none
    refine ⟨k, hk2 h, hk1, ?_⟩
    rw [run_task_events]
    exact hg

/-- Stage behaviours for the C1 witness: an always-approving Reviewer and a
Runner that succeeds immediately. -/
def genW1 : Nat → String → Option String → String × Nat := fun st _ _ => ("print(1)", st)

def revW1 : String → ReviewVerdict := fun _ => ⟨true, "Looks good"⟩

def runW1 : String → PyResult := fun _ => ⟨true, some "1", none⟩

/-- Witness for `run_task_bounded` at `maxTries = 2`. -/
theorem run_task_bounded_witness :
    1 ≤ 2 ∧
    ((∃ r, (run_task genW1 revW1 runW1 "t" 2 0).result = Except.ok r) ∧
     execCount (run_task genW1 revW1 runW1 "t" 2 0).events ≤ 2 ∧
     ∃ k, 1 ≤ k ∧ k ≤ 2 ∧
       genAttempts (run_task genW1 revW1 runW1 "t" 2 0).events = List.range' 1 k) :=
  ⟨by decide, run_task_bounded genW1 revW1 runW1 "t" 2 0 (by decide)⟩

/-- C4: if the Reviewer rejects attempt `i` with `i < maxTries`, the Runner
is not invoked on attempt `i`, and the Generate call of attempt `i + 1`
receives exactly the review feedback as its error message (the synthesized
failure outcome's `errorDetail`). -/
theorem review_reject_skips_runner {σ : Type} (gen : σ → String → Option String → String × σ)
    (rev : String → ReviewVerdict) (run : String → PyResult)
    (task : String) (maxTries : Nat) (st : σ) (i : Nat) (fb : String)
    (hmem : Ev.review i false fb ∈ (run_task gen rev run task maxTries st).events)
    (hi : i < maxTries) :
    Ev.exec i ∉ (run_task gen rev run task maxTries st).events ∧
    Ev.gen (i + 1) (some fb) ∈ (run_task gen rev run task maxTries st).events := by
  rw [run_task_events] at hmem ⊢
  exact runLoop_reject_aux gen rev run task maxTries maxTries 1 st none
    (by omega) (by omega) i fb hmem hi

/-- Stage behaviours for the C4 witness: a Reviewer that always rejects. -/
def genW4 : Nat → String → Option String → String × Nat := fun st _ _ => ("code", st)

def revW4 : String → ReviewVerdict := fun _ => ⟨false, "needs work"⟩

def runW4 : String → PyResult := fun _ => ⟨false, none, some "boom"⟩

/-- Witness for `review_reject_skips_runner`: with `maxTries = 2` the
rejection on attempt 1 skips the Runner and threads the feedback into the
Generate call of attempt 2. -/
theorem review_reject_skips_runner_witness :
    Ev.review 1 false "needs work" ∈ (run_task genW4 revW4 runW4 "t" 2 0).events ∧
    1 < 2 ∧
    (Ev.exec 1 ∉ (run_task genW4 revW4 runW4 "t" 2 0).events ∧
     Ev.gen 2 (some "needs work") ∈ (run_task genW4 revW4 runW4 "t" 2 0).events) :=
  ⟨by decide, by decide,
   review_reject_skips_runner genW4 revW4 runW4 "t" 2 0 1 "needs work" (by decide) (by decide)⟩

/-- C10: with `max_tries = 0` the loop `for attempt in range(1, max_tries + 1)`
never runs its body — no stage is invoked, no execution happens — and the
final `return result` hits the never-assigned `result` local, so the call
raises `UnboundLocalError` instead of returning an outcome. -/
theorem run_task_zero_tries {σ : Type} (gen : σ → String → Option String → String × σ)
    (rev : String → ReviewVerdict) (run : String → PyResult) (task : String) (st : σ) :
    (run_task gen rev run task 0 st).result = Except.error RunErr.unboundLocal ∧
    (run_task gen rev run task 0 st).events = [] ∧
    execCount (run_task gen rev run task 0 st).events = 0 :=
  ⟨rfl, rfl, rfl⟩

/-! ## Claim theorems for failure digestion (C5) -/

/-- C5 (amended): `write_code` digests completion-service failures into the
placeholder candidate `"# Error: …"`, `review` digests service failures into
its heuristic fallback verdict, and `run_code` digests every
`Exception`-class failure into a structured outcome with `worked = false`
and a populated error detail.  (A `BaseException` raised by the candidate
still propagates out of `run_code`; see the counterexample.) -/
theorem components_digest_failures :
    (∀ (ai : AiOracle) (attempt : Nat) (task : String) (errMsg : Option String) (e : String),
      ai (instructionFor (attempt + 1) task errMsg) = Except.error e →
      (write_code ai attempt task errMsg).1 = "# Error: " ++ e) ∧
    (∀ (ai : AiOracle) (code task e : String),
      ai (reviewPrompt code task) = Except.error e →
      review ai code task = reviewFallback code) ∧
    (∀ (execOracle : ExecOracle) (code : String) (e : PyExc),
      execOracle code = Except.error e → isExceptionClass e = true →
      ∃ r, run_code execOracle code = Except.ok r ∧ r.worked = false ∧ r.error ≠ none) := by
  refine ⟨fun ai attempt task errMsg e h => ?_, fun ai code task e h => ?_,
    fun execOracle code e h hcls => ?_⟩
  · unfold write_code
    rw [h]
  · unfold review
    rw [h]
  · cases e with
    | syntaxError lineno msg =>
      refine ⟨⟨false, none, some ("Syntax error on line " ++ toString lineno ++ ": " ++ msg)⟩,
        ?_, rfl, by simp⟩
      simp [run_code, h, classify]
    | nameError msg =>
      refine ⟨⟨false, none, some ("Variable or function not found: " ++ msg)⟩, ?_, rfl, by simp⟩
      simp [run_code, h, classify]
    | otherExc typeName msg =>
      refine ⟨⟨false, none, some (typeName ++ ": " ++ msg)⟩, ?_, rfl, by simp⟩
      simp [run_code, h, classify]
    | baseExc typeName msg =>
      simp [isExceptionClass] at hcls

/-- A completion-service oracle that always fails (network/auth/quota). -/
def failingAi : AiOracle := fun _ => Except.error "quota exceeded"

/-- Witness for `components_digest_failures` at concrete failing calls. -/
theorem components_digest_failures_witness :
    (failingAi (instructionFor 1 "t" none) = Except.error "quota exceeded" ∧
     (write_code failingAi 0 "t" none).1 = "# Error: " ++ "quota exceeded") ∧
    (failingAi (reviewPrompt "c" "t") = Except.error "quota exceeded" ∧
     review failingAi "c" "t" = reviewFallback "c") ∧
    (syntaxErrOracle "x" = Except.error (PyExc.syntaxError 3 "invalid syntax") ∧
     isExceptionClass (PyExc.syntaxError 3 "invalid syntax") = true ∧
     ∃ r, run_code syntaxErrOracle "x" = Except.ok r ∧ r.worked = false ∧ r.error ≠ none) :=
  ⟨⟨rfl, components_digest_failures.1 failingAi 0 "t" none "quota exceeded" rfl⟩,
   ⟨rfl, components_digest_failures.2.1 failingAi "c" "t" "quota exceeded" rfl⟩,
   ⟨rfl, rfl, components_digest_failures.2.2 syntaxErrOracle "x"
      (PyExc.syntaxError 3 "invalid syntax") rfl rfl⟩⟩

/-! ## Claim theorems for the Generator's persistent state (C7) -/

theorem write_code_snd (ai : AiOracle) (attempt : Nat) (task : String) (errMsg : Option String) :
    (write_code ai attempt task errMsg).2 = attempt + 1 := by
  unfold write_code
  cases ai (instructionFor (attempt + 1) task errMsg) <;> rfl

theorem runLoop_coder_mono (ai : AiOracle) (rev : String → ReviewVerdict)
    (run : String → PyResult) (task : String) (maxTries : Nat) :
    ∀ (remaining attempt st : Nat) (prev : Option PyResult),
      st ≤ (runLoop (write_code ai) rev run task maxTries remaining attempt st prev).genSt := by
  intro remaining
  induction remaining with
  | zero => intro attempt st prev; simp [runLoop]
  | succ n ih =>
    intro attempt st prev
    rcases runLoop_succ_shape (write_code ai) rev run task maxTries n attempt st prev with
      ⟨st2, fb, hst2, -, heq⟩ | ⟨st2, app, fb, r, hst2, heq, -⟩ | ⟨st2, app, fb, r, hst2, heq, -⟩
    · have h2 : st2 = st + 1 := by rw [hst2, write_code_snd]
      have hmono := ih (attempt + 1) st2 (some ⟨false, none, some fb⟩)
      rw [heq]
      show st ≤ (runLoop (write_code ai) rev run task maxTries n (attempt + 1) st2
        (some ⟨false, none, some fb⟩)).genSt
      omega
    · rw [heq]
      have h2 : st2 = st + 1 := by rw [hst2, write_code_snd]
      simp [h2]
    · have h2 : st2 = st + 1 := by rw [hst2, write_code_snd]
      have hmono := ih (attempt + 1) st2 (some r)
      rw [heq]
      show st ≤ (runLoop (write_code ai) rev run task maxTries n (attempt + 1) st2 (some r)).genSt
      omega

theorem runLoop_coder_strict (ai : AiOracle) (rev : String → ReviewVerdict)
    (run : String → PyResult) (task : String) (maxTries n attempt st : Nat)
    (prev : Option PyResult) :
    st < (runLoop (write_code ai) rev run task maxTries (n + 1) attempt st prev).genSt := by
  rcases runLoop_succ_shape (write_code ai) rev run task maxTries n attempt st prev with
    ⟨st2, fb, hst2, -, heq⟩ | ⟨st2, app, fb, r, hst2, heq, -⟩ | ⟨st2, app, fb, r, hst2, heq, -⟩
  · have h2 : st2 = st + 1 := by rw [hst2, write_code_snd]
    have hmono := runLoop_coder_mono ai rev run task maxTries n (attempt + 1) st2
      (some ⟨false, none, some fb⟩)
    rw [heq]
    show st < (runLoop (write_code ai) rev run task maxTries n (attempt + 1) st2
      (some ⟨false, none, some fb⟩)).genSt
    omega
  · rw [heq]
    have h2 : st2 = st + 1 := by rw [hst2, write_code_snd]
    simp [h2]
  · have h2 : st2 = st + 1 := by rw [hst2, write_code_snd]
    have hmono := runLoop_coder_mono ai rev run task maxTries n (attempt + 1) st2 (some r)
    rw [heq]
    show st < (runLoop (write_code ai) rev run task maxTries n (attempt + 1) st2 (some r)).genSt
    omega

/-- C7 (amended): the Generator's attempt counter is mutable state that
persists beyond one `run_task` invocation: any invocation with at least one
round leaves the counter strictly larger than it found it, and the
intentionally-incomplete first-attempt instruction is issued only when the
process-lifetime counter is still 0 — a later task's first attempt (counter
already advanced) receives the ordinary complete-code instruction instead,
so invocations do not all observe the same initial Generator state. -/
theorem coder_attempt_persists (ai : AiOracle) (rev : String → ReviewVerdict)
    (run : String → PyResult) (task : String) (maxTries st : Nat) (h : 1 ≤ maxTries) :
    st < (run_task (write_code ai) rev run task maxTries st).genSt ∧
    instructionFor (st + 1) task none =
      (if st = 0 then firstInstruction task else laterInstruction task) ∧
    firstInstruction task ≠ laterInstruction task := by
  refine ⟨?_, ?_, ?_⟩
  · rw [run_task_genSt]
    obtain ⟨m, rfl⟩ : ∃ m, maxTries = m + 1 := ⟨maxTries - 1, by omega⟩
    exact runLoop_coder_strict ai rev run task (m + 1) m 1 st none
  · simp only [instructionFor, pyTruthy, Bool.false_eq_true, if_false]
    cases st <;> simp
  · intro hc
    unfold firstInstruction laterInstruction at hc
    have hd := congrArg String.data hc
    rw [String.data_append, String.data_append] at hd
    have := List.append_cancel_left hd
    exact absurd this (by decide)

/-- Service oracle for the C7 witness. -/
def aiW7 : AiOracle := fun _ => Except.ok "result = 55"

/-- Witness for `coder_attempt_persists` at a concrete one-round run. -/
theorem coder_attempt_persists_witness :
    1 ≤ 1 ∧
    (0 < (run_task (write_code aiW7) revW1 runW1 "t" 1 0).genSt ∧
     instructionFor (0 + 1) "t" none =
       (if 0 = 0 then firstInstruction "t" else laterInstruction "t") ∧
     firstInstruction "t" ≠ laterInstruction "t") :=
  ⟨by decide, coder_attempt_persists aiW7 revW1 runW1 "t" 1 0 (by decide)⟩

/-- Service oracle for the C7 counterexample: it answers the
intentionally-incomplete first instruction with a stub and any other
instruction with working code. -/
def aiSeven : AiOracle := fun instr =>
  if instr == firstInstruction "taskA" then Except.ok "# TODO incomplete"
  else Except.ok "result = 55"

def revSeven : String → ReviewVerdict := fun _ => ⟨true, "ok"⟩

def runSeven : String → PyResult := fun code =>
  if code == "result = 55" then ⟨true, some "Result: 55", none⟩
  else ⟨false, none, some "incomplete"⟩

/-- C7, counterexample: the claim as stated is false — a second `run_task`
invocation with the same Generator starts from the counter the first
invocation left (1, not 0), and its outcome differs from a fresh
invocation's outcome on the identical task, because the Generator no longer
issues its first-attempt behaviour. -/
theorem coder_state_counterexample :
    (run_task (write_code aiSeven) revSeven runSeven "taskA" 1 0).genSt = 1 ∧
    (run_task (write_code aiSeven) revSeven runSeven "taskA" 1
        ((run_task (write_code aiSeven) revSeven runSeven "taskA" 1 0).genSt)).result ≠
      (run_task (write_code aiSeven) revSeven runSeven "taskA" 1 0).result := by
  refine ⟨by decide, by decide⟩

end Autogen
